import Mathlib

/-!
Verification development for the EcoActu news/chat front end.

The definitions below are a shallow embedding of the response-parsing,
source-collection, article-aggregation, image-enrichment, error-classification
and chat-streaming logic of the repository (the current revision of the
Gemini service module, the chatbot window error handler, and the shared
data model). Strings are modelled as Lean String / List Char; the
nondeterministic external collaborators (the model response text, the
grounding chunks, the clock, and the per-article image generation calls)
are passed in as explicit parameters.
-/

/-- Whitespace class used by the JavaScript trim operation and by the
regular-expression whitespace class: space, tab, newline, carriage return,
vertical tab and form feed. (JavaScript also counts rarer Unicode spaces;
they never occur in the inputs considered here.) -/
def isJsWsChar (c : Char) : Bool :=
  c = ' ' || c = '\t' || c = '\n' || c = '\r' || c = '\x0b' || c = '\x0c'

/-- Model of the JavaScript string trim: drop whitespace at both ends. -/
def jsTrimChars (cs : List Char) : List Char :=
  ((cs.dropWhile isJsWsChar).reverse.dropWhile isJsWsChar).reverse

/-- Characters of positions a (inclusive) to b (exclusive), as in the
JavaScript substring operation. -/
def subList (cs : List Char) (a b : Nat) : List Char :=
  (cs.take b).drop a

/-- Whether the pattern occurs in cs starting exactly at position p. -/
def matchesAt (cs pat : List Char) (p : Nat) : Bool :=
  pat.isPrefixOf (cs.drop p)

/-- First position at or after s where the pattern occurs (indexOf-style
search used to model both indexOf and regular-expression scanning). -/
def findFrom (cs pat : List Char) (s : Nat) : Option Nat :=
  (List.range (cs.length + 1)).find? (fun p => decide (s ≤ p) && matchesAt cs pat p)

/-- All occurrence positions at or after s, in increasing order. -/
def occListFrom (cs pat : List Char) (s : Nat) : List Nat :=
  (List.range (cs.length + 1)).filter (fun p => decide (s ≤ p) && matchesAt cs pat p)

/-- Number of occurrence positions of the pattern at or after position s.
For the title marker, which cannot overlap itself, this is the plain
occurrence count of the marker in the text. -/
def occCntFrom (cs pat : List Char) (s : Nat) : Nat :=
  ((Finset.range (cs.length + 1)).filter (fun p => s ≤ p ∧ matchesAt cs pat p = true)).card

/-- Model of the JavaScript String.prototype.includes used by the error
classification code. -/
def containsSub (hay pat : String) : Bool :=
  (findFrom hay.data pat.data 0).isSome

/-- Position of the first occurrence of a single character (indexOf). -/
def firstIdxOf (cs : List Char) (c : Char) : Option Nat :=
  findFrom cs [c] 0

/-- Position of the last occurrence of a single character (lastIndexOf). -/
def lastIdxOf (cs : List Char) (c : Char) : Option Nat :=
  match findFrom cs.reverse [c] 0 with
  | some p => some (cs.length - 1 - p)
  | none => none

/-- The span from the first open bracket to the last close bracket, when the
close bracket lies strictly after the open bracket - the cleanedJsonStr
computation of fetchEnvironmentalNews (jsonStartIndex, jsonEndIndex and the
guard jsonEndIndex greater than jsonStartIndex). -/
def extractSpan (cs : List Char) : Option (List Char) :=
  match firstIdxOf cs '[', lastIdxOf cs ']' with
  | some a, some b => if a < b then some (subList cs a (b + 1)) else none
  | some _, none => none
  | none, _ => none

/-- JSON values, as produced by JSON.parse. Numeric literals are modelled by
their integer part (fractional and exponent syntax is accepted and ignored);
no number is ever inspected by the pipeline. -/
inductive Json where
  | null : Json
  | bool : Bool → Json
  | num : Int → Json
  | str : String → Json
  | arr : List Json → Json
  | obj : List (String × Json) → Json

/-- JSON insignificant whitespace. -/
def skipJsonWs (cs : List Char) : List Char :=
  cs.dropWhile (fun c => c = ' ' || c = '\t' || c = '\n' || c = '\r')

/-- Value of a hexadecimal digit. -/
def hexDigitVal (c : Char) : Option Nat :=
  if '0' ≤ c ∧ c ≤ '9' then some (c.toNat - 48)
  else if 'a' ≤ c ∧ c ≤ 'f' then some (c.toNat - 87)
  else if 'A' ≤ c ∧ c ≤ 'F' then some (c.toNat - 55)
  else none

/-- Decimal digits to a natural number. -/
def digitsToNat (l : List Char) : Nat :=
  l.foldl (fun n c => n * 10 + (c.toNat - 48)) 0

/-- Scan of a JSON string body after the opening quote, handling the escape
sequences JSON.parse accepts; returns the decoded characters and the rest of
the input after the closing quote. -/
def parseStrGo : Nat → List Char → List Char → Option (List Char × List Char)
  | 0, _, _ => none
  | _ + 1, acc, '"' :: rest => some (acc.reverse, rest)
  | f + 1, acc, '\\' :: e :: rest =>
    match e with
    | '"' => parseStrGo f ('"' :: acc) rest
    | '\\' => parseStrGo f ('\\' :: acc) rest
    | '/' => parseStrGo f ('/' :: acc) rest
    | 'n' => parseStrGo f ('\n' :: acc) rest
    | 't' => parseStrGo f ('\t' :: acc) rest
    | 'r' => parseStrGo f ('\r' :: acc) rest
    | 'b' => parseStrGo f ('\x08' :: acc) rest
    | 'f' => parseStrGo f ('\x0c' :: acc) rest
    | 'u' =>
      match rest with
      | h1 :: h2 :: h3 :: h4 :: rest2 =>
        match hexDigitVal h1, hexDigitVal h2, hexDigitVal h3, hexDigitVal h4 with
        | some v1, some v2, some v3, some v4 =>
          parseStrGo f (Char.ofNat (((v1 * 16 + v2) * 16 + v3) * 16 + v4) :: acc) rest2
        | _, _, _, _ => none
      | _ => none
    | _ => none
  | f + 1, acc, c :: rest => parseStrGo f (c :: acc) rest
  | _, _, [] => none

/-- Exponent digits with optional sign. -/
def parseSignedDigits (r : List Char) : Option (List Char) :=
  let r1 := match r with
    | '+' :: t => t
    | '-' :: t => t
    | _ => r
  let ds := r1.takeWhile Char.isDigit
  if ds.isEmpty then none else some (r1.drop ds.length)

/-- Optional exponent part of a JSON number. -/
def parseExpPart : List Char → Option (List Char)
  | 'e' :: r => parseSignedDigits r
  | 'E' :: r => parseSignedDigits r
  | r => some r

/-- JSON number literal; the value kept is the signed integer part. -/
def parseNum (cs : List Char) : Option (Json × List Char) :=
  let sgn : Bool × List Char := match cs with
    | '-' :: r => (true, r)
    | _ => (false, cs)
  let ds := sgn.2.takeWhile Char.isDigit
  if ds.isEmpty then none
  else
    let rest1 := sgn.2.drop ds.length
    let rest2 : Option (List Char) := match rest1 with
      | '.' :: r =>
        let fs := r.takeWhile Char.isDigit
        if fs.isEmpty then none else some (r.drop fs.length)
      | _ => some rest1
    match rest2 with
    | none => none
    | some r2 =>
      match parseExpPart r2 with
      | none => none
      | some r3 =>
        some (Json.num (if sgn.1 then -(digitsToNat ds : Int) else (digitsToNat ds : Int)), r3)

mutual

/-- Recursive-descent model of JSON.parse for a single value; fuel-indexed. -/
def parseVal : Nat → List Char → Option (Json × List Char)
  | 0, _ => none
  | f + 1, cs0 =>
    let cs := skipJsonWs cs0
    if "true".data.isPrefixOf cs then some (Json.bool true, cs.drop 4)
    else if "false".data.isPrefixOf cs then some (Json.bool false, cs.drop 5)
    else if "null".data.isPrefixOf cs then some (Json.null, cs.drop 4)
    else
      match cs with
      | '"' :: rest =>
        match parseStrGo (rest.length + 1) [] rest with
        | some (s, r) => some (Json.str (String.mk s), r)
        | none => none
      | '[' :: rest =>
        (match skipJsonWs rest with
         | ']' :: r2 => some (Json.arr [], r2)
         | _ => parseArrElems f rest [])
      | '{' :: rest =>
        (match skipJsonWs rest with
         | '}' :: r2 => some (Json.obj [], r2)
         | _ => parseObjMembers f rest [])
      | c :: _ => if c = '-' || c.isDigit then parseNum cs else none
      | [] => none

/-- Elements of a JSON array after the opening bracket. -/
def parseArrElems : Nat → List Char → List Json → Option (Json × List Char)
  | 0, _, _ => none
  | f + 1, cs, acc =>
    match parseVal f cs with
    | some (v, r) =>
      (match skipJsonWs r with
       | ',' :: r2 => parseArrElems f r2 (v :: acc)
       | ']' :: r2 => some (Json.arr (v :: acc).reverse, r2)
       | _ => none)
    | none => none

/-- Members of a JSON object after the opening brace. -/
def parseObjMembers : Nat → List Char → List (String × Json) → Option (Json × List Char)
  | 0, _, _ => none
  | f + 1, cs, acc =>
    match skipJsonWs cs with
    | '"' :: rest =>
      (match parseStrGo (rest.length + 1) [] rest with
       | some (k, r1) =>
         (match skipJsonWs r1 with
          | ':' :: r2 =>
            (match parseVal f r2 with
             | some (v, r3) =>
               (match skipJsonWs r3 with
                | ',' :: r4 => parseObjMembers f r4 ((String.mk k, v) :: acc)
                | '}' :: r4 => some (Json.obj ((String.mk k, v) :: acc).reverse, r4)
                | _ => none)
             | none => none)
          | _ => none)
       | none => none)
    | _ => none

end

/-- Model of JSON.parse: one value, then nothing but whitespace. A none
result models the SyntaxError JSON.parse throws on malformed input. -/
def jsonParse (cs : List Char) : Option Json :=
  match parseVal (2 * cs.length + 4) cs with
  | some (v, rest) => if (skipJsonWs rest).isEmpty then some v else none
  | none => none

/-- The title marker literal of the fallback regular expression. -/
def titreMark : List Char := "Titre:".data

/-- The summary label literal of the fallback regular expression. -/
def resumeLab : List Char := "Résumé:".data

/-- The category label literal of the fallback regular expression. -/
def categLab : List Char := "Catégorie:".data

/-- Length of the maximal whitespace run starting at position p. -/
def wsRun (cs : List Char) (p : Nat) : Nat :=
  ((cs.drop p).takeWhile isJsWsChar).length

/-- Candidate outcomes, in backtracking priority order, for the regular
expression fragment that skips whitespace, captures a lazy group and then
requires a newline followed by the given label. The greedy whitespace run w
is tried at full length first, with the lazy group ending at each occurrence
of the newline-label literal at or after the run, in increasing position
order; the only further candidate the engine can reach is the run shortened
by one character so that its final newline itself starts the literal, which
yields an empty capture. Each candidate carries the captured characters and
the input position just after the label. -/
def skipCands (cs : List Char) (a : Nat) (lab : List Char) : List (List Char × Nat) :=
  ((occListFrom cs ('\n' :: lab) (a + wsRun cs a)).map
      (fun r => (subList cs (a + wsRun cs a) r, r + 1 + lab.length))) ++
    (if 0 < wsRun cs a ∧ matchesAt cs ('\n' :: lab) (a + wsRun cs a - 1) = true then
      [([], (a + wsRun cs a - 1) + 1 + lab.length)]
    else [])

/-- The lookahead at the end of the fallback pattern: either a newline and a
further title marker follows, or only newlines remain to the end of input. -/
def lookaheadOk (cs : List Char) (r : Nat) : Bool :=
  matchesAt cs ('\n' :: titreMark) r || (cs.drop r).all (fun c => c = '\n')

/-- Smallest position at or after s where the final lookahead holds. The
end-of-input position always qualifies, so the fallback branch returning s
is unreachable for in-range s; it keeps the function total. -/
def findLookahead (cs : List Char) (s : Nat) : Nat :=
  match (List.range (cs.length + 1)).find? (fun p => decide (s ≤ p) && lookaheadOk cs p) with
  | some r => r
  | none => s

/-- Completion of a match once the category label has been passed at
position p3: skip whitespace greedily, stop the last lazy group at the first
position satisfying the lookahead. Returns the three captures and the end of
the match (the position scanning resumes from). -/
def stage3Finish (cs : List Char) (g1 g2 : List Char) (p3 : Nat) :
    (List Char × List Char × List Char) × Nat :=
  ((g1, g2, subList cs (p3 + wsRun cs p3) (findLookahead cs (p3 + wsRun cs p3))),
    findLookahead cs (p3 + wsRun cs p3))

/-- Backtracking over the candidates of the first captured group: for each,
the candidates for the second group are computed; the first pair for which
the second stage has a candidate completes the match (the final stage always
succeeds). -/
def firstStage2 (cs : List Char) :
    List (List Char × Nat) → Option ((List Char × List Char × List Char) × Nat)
  | [] => none
  | (g1, p2) :: rest =>
    match skipCands cs p2 categLab with
    | (g2, p3) :: _ => some (stage3Finish cs g1 g2 p3)
    | [] => firstStage2 cs rest

/-- Attempt of the full fallback pattern at an occurrence of the title
marker at position i. -/
def matchAtTitre (cs : List Char) (i : Nat) :
    Option ((List Char × List Char × List Char) × Nat) :=
  firstStage2 cs (skipCands cs (i + titreMark.length) resumeLab)

/-- Leftmost match of the fallback pattern at or after position s: the
engine advances to each occurrence of the title marker in turn until the
pattern completes. Fuel decreases on each advance. -/
def findMatchFrom (cs : List Char) :
    Nat → Nat → Option ((List Char × List Char × List Char) × Nat)
  | 0, _ => none
  | fuel + 1, s =>
    match findFrom cs titreMark s with
    | none => none
    | some i =>
      match matchAtTitre cs i with
      | some res => some res
      | none => findMatchFrom cs fuel (i + 1)

/-- Model of matchAll: repeated leftmost matching, resuming after each
match. Every match ends strictly after the position it started from and
match ends stay within the input, so the fuel used by fallbackMatches below
never runs out. -/
def matchAllGo (cs : List Char) : Nat → Nat → List (List Char × List Char × List Char)
  | 0, _ => []
  | fuel + 1, pos =>
    match findMatchFrom cs (cs.length + 1) pos with
    | none => []
    | some (caps, nxt) => caps :: matchAllGo cs fuel nxt

/-- All matches of the fallback pattern, in order. -/
def fallbackMatches (cs : List Char) : List (List Char × List Char × List Char) :=
  matchAllGo cs (cs.length + 2) 0

/-- A parsed record before aggregation. The three fields model the title,
summary and category properties read off a parsed object; absent properties
(undefined at run time) are modelled as none. Non-string property values,
which the pipeline never inspects beyond copying, are also modelled as
absent. -/
structure RawArticle where
  title : Option String
  summary : Option String
  category : Option String

/-- The trimmed string of a captured character range. -/
def strTrim (cs : List Char) : String :=
  String.mk (jsTrimChars cs)

/-- The regex fallback branch of fetchEnvironmentalNews: every match of the
pattern contributes one record with the trimmed captures as title, summary
and category. -/
def fallbackRegexParse (cs : List Char) : List RawArticle :=
  (fallbackMatches cs).map
    (fun caps => ⟨some (strTrim caps.1), some (strTrim caps.2.1), some (strTrim caps.2.2)⟩)

/-- Last binding of a key in a parsed object, matching the
last-duplicate-wins behaviour of JSON.parse. -/
def lookupLast (fields : List (String × Json)) (key : String) : Option Json :=
  fields.foldl (fun acc kv => if kv.1 = key then some kv.2 else acc) none

/-- String value of a field of a parsed object, when the value is a string. -/
def jStrField (j : Json) (key : String) : Option String :=
  match j with
  | Json.obj fields =>
    match lookupLast fields key with
    | some (Json.str s) => some s
    | _ => none
  | _ => none

/-- Property reads performed on each element of the parsed array. -/
def jsonToRaw (j : Json) : RawArticle :=
  ⟨jStrField j "title", jStrField j "summary", jStrField j "category"⟩

/-- The parsed JSON array as a record list. The non-array case cannot arise
from a bracket-delimited span accepted by jsonParse; it keeps the function
total. -/
def jsonToRaws : Json → List RawArticle
  | Json.arr l => l.map jsonToRaw
  | _ => []

/-- Representative text of the SyntaxError raised by JSON.parse on a
malformed span. The pipeline only tests this text for the credential
substrings, which no SyntaxError contains, so its exact wording is
immaterial. -/
def jsonSyntaxErrorMessage : String :=
  "Unexpected token o in JSON at position 1"

/-- The parsing stage of fetchEnvironmentalNews: trim the response text,
take the primary JSON path when a bracket span exists (a JSON.parse failure
on that span escapes to the surrounding catch, modelled as an error), and
take the regex fallback only when no bracket span is found. -/
def parseStage (text : String) : Except String (List RawArticle) :=
  match extractSpan (jsTrimChars text.data) with
  | some span =>
    match jsonParse span with
    | some j => Except.ok (jsonToRaws j)
    | none => Except.error jsonSyntaxErrorMessage
  | none => Except.ok (fallbackRegexParse (jsTrimChars text.data))

/-- A citation source: uri is required, title is display-only and optional. -/
structure Source where
  uri : String
  title : Option String

/-- A web reference inside a grounding chunk; both fields may be absent. -/
structure WebRef where
  uri : Option String
  title : Option String

/-- A nested review snippet of a map reference. -/
structure Snippet where
  uri : Option String
  title : Option String

/-- Container of review snippets under a map reference. -/
structure PlaceAnswerSources where
  reviewSnippets : Option (List Snippet)

/-- A map reference inside a grounding chunk. -/
structure MapsRef where
  uri : Option String
  title : Option String
  placeAnswerSources : Option PlaceAnswerSources

/-- A grounding chunk. An absent field models both a missing key and a null
value - either way the corresponding branch of the collector does nothing.
A chunk with neither field models an unrecognized shape. -/
structure GroundingChunk where
  web : Option WebRef
  maps : Option MapsRef

/-- JavaScript truthiness of an optional string: present and non-empty. -/
def optTruthy : Option String → Bool
  | some s => !s.isEmpty
  | none => false

/-- The default applied to a snippet title: the logical-or with the literal
falls back to the default when the title is absent or the empty string. -/
def snippetTitle : Option String → String
  | some t => if t.isEmpty then "Review Snippet" else t
  | none => "Review Snippet"

/-- The web branch of the chunk walk: fires when the web uri is truthy. -/
def webChunkSources (c : GroundingChunk) : List Source :=
  match c.web with
  | some w =>
    (match w.uri with
     | some u => if u.isEmpty then [] else [⟨u, w.title⟩]
     | none => [])
  | none => []

/-- The push performed for one nested review snippet: kept only when the
snippet uri is truthy, with the defaulted title. -/
def snippetPush (sn : Snippet) : Option Source :=
  match sn.uri with
  | some su => if su.isEmpty then none else some ⟨su, some (snippetTitle sn.title)⟩
  | none => none

/-- The maps branch of the chunk walk: fires when the maps uri is truthy,
pushing the place source and then walking the nested review snippets. -/
def mapsChunkSources (c : GroundingChunk) : List Source :=
  match c.maps with
  | some m =>
    (match m.uri with
     | some u =>
       if u.isEmpty then []
       else
         ⟨u, m.title⟩ ::
           (match m.placeAnswerSources with
            | some pas =>
              (match pas.reviewSnippets with
               | some snips => snips.filterMap snippetPush
               | none => [])
            | none => [])
     | none => [])
  | none => []

/-- Sources pushed for one grounding chunk, in push order: the web branch
first, then the maps branch (the two ifs run in sequence on each chunk). -/
def chunkSources (c : GroundingChunk) : List Source :=
  webChunkSources c ++ mapsChunkSources c

/-- The source collector: the forEach over grounding chunks pushing into the
single allSources accumulator. -/
def collectSources (chunks : List GroundingChunk) : List Source :=
  chunks.foldl (fun acc c => acc ++ chunkSources c) []

/-- Stated from the amended 4.2 contract wording, for comparison with
collectSources: one Source per web-reference chunk with a present non-empty
URI. -/
def webSourceSpec (c : GroundingChunk) : List Source :=
  match c.web with
  | some w => if optTruthy w.uri then [⟨w.uri.getD "", w.title⟩] else []
  | none => []

/-- Stated from the amended 4.2 contract wording: snippet titles default to
the literal Review Snippet when absent or empty. -/
def snippetTitleSpec (t : Option String) : String :=
  if optTruthy t then t.getD "" else "Review Snippet"

/-- Stated from the amended 4.2 contract wording: one Source per review
snippet carrying a present non-empty URI. -/
def snippetSourceSpec (sn : Snippet) : List Source :=
  if optTruthy sn.uri then [⟨sn.uri.getD "", some (snippetTitleSpec sn.title)⟩] else []

/-- Stated from the amended 4.2 contract wording: a map-reference chunk with
a present non-empty place URI yields one Source for the place and then the
snippet sources; any other map-reference chunk yields nothing. -/
def mapsSourcesSpec (c : GroundingChunk) : List Source :=
  match c.maps with
  | some m =>
    if optTruthy m.uri then
      ⟨m.uri.getD "", m.title⟩ ::
        ((match m.placeAnswerSources with
          | some pas => pas.reviewSnippets.getD []
          | none => []).flatMap snippetSourceSpec)
    else []
  | none => []

/-- Stated from the amended 4.2 contract wording, chunk by chunk. -/
def specCollectSources (chunks : List GroundingChunk) : List Source :=
  chunks.flatMap (fun c => webSourceSpec c ++ mapsSourcesSpec c)

/-- The shared article shape of the current data model (types module):
category, fullContent, imageUrl and createdAt are optional; title and
summary are typed as required strings but at run time carry whatever the
parsed object held, so they are modelled as optional as well. -/
structure NewsArticle where
  id : String
  title : Option String
  summary : Option String
  category : Option String
  fullContent : Option String
  sources : List Source
  imageUrl : Option String
  createdAt : Option Int

/-- Index-carrying map, the shape of the two map callbacks that receive the
element index. -/
def mapIdxFrom (f : Nat → α → β) (i : Nat) : List α → List β
  | [] => []
  | a :: as => f i a :: mapIdxFrom f (i + 1) as

/-- One article record of the aggregator: id composed from index and fetch
timestamp, fields copied from the parsed record, the whole shared source
list attached, and createdAt synthesized by offsetting the batch timestamp
backward by one hour per position from the end (the code subtracts
(length - 1 - index) hours, so the last index carries the batch timestamp
itself). The clock readings within one fetch are modelled by the single
parameter now. -/
def mkOneArticle (r : RawArticle) (index total : Nat) (sources : List Source)
    (now : Int) : NewsArticle :=
  { id := "article-" ++ toString index ++ "-" ++ toString now
    title := r.title
    summary := r.summary
    category := r.category
    fullContent := none
    sources := sources
    imageUrl := none
    createdAt := some (now - (((total : Int) - 1) - (index : Int)) * 3600000) }

/-- The aggregation map of fetchEnvironmentalNews. -/
def mkNewsArticles (raws : List RawArticle) (sources : List Source)
    (now : Int) : List NewsArticle :=
  mapIdxFrom (fun i r => mkOneArticle r i raws.length sources now) 0 raws

/-- The per-article image enrichment. The outcome of the external image
generation call for the article at each index is the oracle imgs: some url
on success, none when the call fails or resolves without an image. A failed
call leaves the article unchanged (the catch branch returns the article);
since aggregated articles carry no imageUrl, the spread that would write an
undefined imageUrl on an imageless resolution leaves the same article. -/
def enrichWithImages (imgs : Nat → Option String) (arts : List NewsArticle) :
    List NewsArticle :=
  mapIdxFrom (fun i a =>
    match imgs i with
    | some u => { a with imageUrl := some u }
    | none => a) 0 arts

/-- The catch block shared verbatim by fetchEnvironmentalNews,
fetchDetailedArticleContent and fetchEnvironmentalFacts: errors whose string
form contains either credential substring become the distinct credential
message; anything else is wrapped as a generic fetch failure. -/
def fetchCatchMessage (e : String) : String :=
  if containsSub e "API_KEY_INVALID" || containsSub e "Requested entity was not found." then
    "Clé API invalide ou non sélectionnée. Veuillez sélectionner votre clé API."
  else
    "Failed to fetch news from Gemini API: " ++ e

/-- The news fetch pipeline: parse the response text, collect the shared
source list from the grounding chunks, aggregate, enrich with images. A
parse error (the only failure the modelled stages can raise) reaches the
catch block and is surfaced to the caller. -/
def fetchEnvironmentalNews (text : String) (chunks : List GroundingChunk)
    (now : Int) (imgs : Nat → Option String) : Except String (List NewsArticle) :=
  match parseStage text with
  | Except.error e => Except.error (fetchCatchMessage e)
  | Except.ok raws =>
    Except.ok (enrichWithImages imgs (mkNewsArticles raws (collectSources chunks) now))

/-- Whether an Except value is a success. -/
def isOkE : Except ε α → Bool
  | Except.ok _ => true
  | Except.error _ => false

/-- Outcome of the chatbot send error handler: the error banner set and
whether the key re-selection flow is triggered. -/
structure ChatErrorAction where
  message : String
  reselect : Bool

/-- The catch block of handleSendMessage in the chatbot window: credential
substrings yield the credential banner and trigger onSelectApiKey; anything
else yields the generic banner without re-selection. -/
def chatHandleSendError (e : String) : ChatErrorAction :=
  if containsSub e "API_KEY_INVALID" || containsSub e "Requested entity was not found." then
    ⟨"Votre clé API est invalide ou a expiré. Veuillez en sélectionner une nouvelle.", true⟩
  else
    ⟨"Désolé, une erreur est survenue lors de la communication avec EcoBot. Veuillez réessayer.", false⟩

/-- The chat streaming adapter: the stream of text fragments produced by one
send is delivered to the sink one fragment at a time, in order, the sink
threading its state explicitly (the JavaScript callback closes over mutable
state instead). The send resolves after the last fragment. -/
def sendMessageToChat {σ : Type} (fragments : List String)
    (onChunk : σ → String → σ) (init : σ) : σ :=
  fragments.foldl onChunk init

/-- Concatenation of all fragments, the accumulated text of a caller whose
sink appends each fragment. -/
def concatFragments (l : List String) : String :=
  l.foldl (fun a b => a ++ b) ""

/-- A default article value used only to state list lookups in closed
statements. -/
def emptyArticle : NewsArticle :=
  ⟨"", none, none, none, none, [], none, none⟩

/-- Concrete two-record batch input. -/
def c1Raws : List RawArticle :=
  [⟨some "a1", some "s1", some "Destruction"⟩, ⟨some "a2", some "s2", some "Protection"⟩]

/-- Concrete well-formed JSON model output. -/
def c2Text : String :=
  "[\x7b\"title\":\"a\",\"summary\":\"b\",\"category\":\"c\"\x7d]"

/-- The parsed object of c2Text. -/
def c2Obj : Json :=
  Json.obj [("title", Json.str "a"), ("summary", Json.str "b"), ("category", Json.str "c")]

/-- A map-reference chunk with no place URI but a nested review snippet that
does carry a URI. -/
def c5Chunk : GroundingChunk :=
  ⟨none, some ⟨none, some "Une place", some ⟨some [⟨some "http://avis.example", some "Avis"⟩]⟩⟩⟩

/-- Concrete unstructured model output without any bracket span. -/
def c6Text : String :=
  "Titre: A\nRésumé: B\nCatégorie: C"

/-- A web-reference chunk with a present URI. -/
def c6Chunk : GroundingChunk :=
  ⟨some ⟨some "http://web.example", some "Web"⟩, none⟩

/-- An image oracle that never produces an image. -/
def c6Imgs : Nat → Option String := fun _ => none

/-- The article batch computed by the modelled fetch on the concrete inputs
above. -/
def c6Arts : List NewsArticle :=
  match fetchEnvironmentalNews c6Text [c6Chunk] 0 c6Imgs with
  | Except.ok a => a
  | Except.error _ => []

/-- Concrete two-record batch input for the enrichment claim. -/
def c7Raws : List RawArticle :=
  [⟨some "t1", some "s1", some "Conservation"⟩, ⟨some "t2", some "s2", some "Protection"⟩]

/-- An image oracle failing exactly at index 0. -/
def c7Imgs : Nat → Option String :=
  fun j => if j = 0 then none else some "data:image/png;base64,xyz"

/-- A map reference whose place URI is the empty string (falsy), with a
snippet that carries a URI. -/
def c10Maps : MapsRef :=
  ⟨some "", some "Place", some ⟨some [⟨some "http://avis2.example", some "T"⟩]⟩⟩

theorem length_mapIdxFrom (f : Nat → α → β) :
    ∀ (l : List α) (i : Nat), (mapIdxFrom f i l).length = l.length := by
  intro l
  induction l with
  | nil => intro i; rfl
  | cons a as ih => intro i; simp [mapIdxFrom, ih]

theorem get_mapIdxFrom (f : Nat → α → β) :
    ∀ (l : List α) (i k : Nat) (hk : k < l.length) (hk2 : k < (mapIdxFrom f i l).length),
      (mapIdxFrom f i l).get ⟨k, hk2⟩ = f (i + k) (l.get ⟨k, hk⟩) := by
  intro l
  induction l with
  | nil => intro i k hk hk2; exact absurd hk (by simp)
  | cons a as ih =>
    intro i k hk hk2
    cases k with
    | zero => simp [mapIdxFrom]
    | succ k2 =>
      have h1 : k2 < as.length := by
        have := hk
        simp only [List.length_cons] at this
        omega
      have h2 : k2 < (mapIdxFrom f (i + 1) as).length := by
        rw [length_mapIdxFrom]
        exact h1
      show (f i a :: mapIdxFrom f (i + 1) as).get ⟨k2 + 1, hk2⟩ = _
      rw [List.get_cons_succ]
      rw [ih (i + 1) k2 h1 h2]
      congr 1
      omega

theorem get_map_aux (f : α → β) (l : List α) (k : Nat) (h1 : k < l.length)
    (h2 : k < (l.map f).length) : (l.map f).get ⟨k, h2⟩ = f (l.get ⟨k, h1⟩) := by
  simp

theorem mkNewsArticles_length (raws : List RawArticle) (sources : List Source)
    (now : Int) : (mkNewsArticles raws sources now).length = raws.length :=
  length_mapIdxFrom _ raws 0

theorem mkNewsArticles_get (raws : List RawArticle) (sources : List Source)
    (now : Int) (k : Nat) (hk : k < raws.length)
    (hk2 : k < (mkNewsArticles raws sources now).length) :
    (mkNewsArticles raws sources now).get ⟨k, hk2⟩ =
      mkOneArticle (raws.get ⟨k, hk⟩) k raws.length sources now := by
  have := get_mapIdxFrom (fun i r => mkOneArticle r i raws.length sources now) raws 0 k hk hk2
  simpa using this

theorem enrichWithImages_length (imgs : Nat → Option String) (arts : List NewsArticle) :
    (enrichWithImages imgs arts).length = arts.length :=
  length_mapIdxFrom _ arts 0

theorem enrichWithImages_get (imgs : Nat → Option String) (arts : List NewsArticle)
    (k : Nat) (hk : k < arts.length) (hk2 : k < (enrichWithImages imgs arts).length) :
    (enrichWithImages imgs arts).get ⟨k, hk2⟩ =
      match imgs k with
      | some u => { arts.get ⟨k, hk⟩ with imageUrl := some u }
      | none => arts.get ⟨k, hk⟩ := by
  have h2 : k < (mapIdxFrom (fun i (a : NewsArticle) =>
      match imgs i with
      | some u => { a with imageUrl := some u }
      | none => a) 0 arts).length := hk2
  have := get_mapIdxFrom (fun i (a : NewsArticle) =>
    match imgs i with
    | some u => { a with imageUrl := some u }
    | none => a) arts 0 k hk h2
  simpa using this

theorem collectSources_foldl_acc :
    ∀ (cs : List GroundingChunk) (acc : List Source),
      cs.foldl (fun a c => a ++ chunkSources c) acc = acc ++ collectSources cs := by
  intro cs
  induction cs with
  | nil => intro acc; simp [collectSources]
  | cons c cs ih =>
    intro acc
    show List.foldl _ (acc ++ chunkSources c) cs = acc ++ collectSources (c :: cs)
    rw [ih]
    show _ = acc ++ List.foldl _ ([] ++ chunkSources c) cs
    rw [ih]
    simp

theorem collectSources_cons (c : GroundingChunk) (cs : List GroundingChunk) :
    collectSources (c :: cs) = chunkSources c ++ collectSources cs := by
  show List.foldl _ ([] ++ chunkSources c) cs = _
  rw [collectSources_foldl_acc]
  simp

theorem collectSources_append (l1 l2 : List GroundingChunk) :
    collectSources (l1 ++ l2) = collectSources l1 ++ collectSources l2 := by
  show List.foldl _ [] (l1 ++ l2) = _
  rw [List.foldl_append, collectSources_foldl_acc]
  rfl

theorem snippetTitle_eq_spec (t : Option String) : snippetTitle t = snippetTitleSpec t := by
  cases t with
  | none => rfl
  | some s =>
    by_cases h : s.isEmpty <;> simp [snippetTitle, snippetTitleSpec, optTruthy, h]

theorem filterMap_snippetPush_eq (snips : List Snippet) :
    snips.filterMap snippetPush = snips.flatMap snippetSourceSpec := by
  induction snips with
  | nil => rfl
  | cons sn rest ih =>
    rw [List.filterMap_cons, List.flatMap_cons]
    cases hsu : sn.uri with
    | none => simp [snippetPush, snippetSourceSpec, optTruthy, hsu, ih]
    | some su =>
      by_cases h : su.isEmpty <;>
        simp [snippetPush, snippetSourceSpec, optTruthy, hsu, h, ih, snippetTitle_eq_spec]

theorem webChunkSources_eq_spec (c : GroundingChunk) :
    webChunkSources c = webSourceSpec c := by
  obtain ⟨w, m⟩ := c
  cases w with
  | none => rfl
  | some ww =>
    cases hu : ww.uri with
    | none => simp [webChunkSources, webSourceSpec, optTruthy, hu]
    | some u =>
      by_cases h : u.isEmpty <;> simp [webChunkSources, webSourceSpec, optTruthy, hu, h]

theorem mapsChunkSources_eq_spec (c : GroundingChunk) :
    mapsChunkSources c = mapsSourcesSpec c := by
  obtain ⟨w, m⟩ := c
  cases m with
  | none => rfl
  | some mm =>
    obtain ⟨mu, mt, mpas⟩ := mm
    cases mu with
    | none => simp [mapsChunkSources, mapsSourcesSpec, optTruthy]
    | some u =>
      by_cases h : u.isEmpty
      · simp [mapsChunkSources, mapsSourcesSpec, optTruthy, h]
      · cases mpas with
        | none => simp [mapsChunkSources, mapsSourcesSpec, optTruthy, h]
        | some pas =>
          obtain ⟨rs⟩ := pas
          cases rs with
          | none => simp [mapsChunkSources, mapsSourcesSpec, optTruthy, h]
          | some snips =>
            simp [mapsChunkSources, mapsSourcesSpec, optTruthy, h, filterMap_snippetPush_eq]

/-- C5 (amended): for every list of grounding chunks the source collector
yields one Source per web-reference chunk with a present non-empty URI; for
each map-reference chunk with a present non-empty place URI, one Source for
the place plus one Source per nested review snippet carrying a non-empty
URI, the snippet title defaulting to the literal Review Snippet when absent
or empty; and nothing from chunks of unrecognized shape or whose URIs are
absent or empty. Formalized as the equality of the collector with the
chunk-by-chunk description stated from this wording. -/
theorem collectSources_spec_description :
    ∀ (chunks : List GroundingChunk), collectSources chunks = specCollectSources chunks := by
  intro chunks
  induction chunks with
  | nil => rfl
  | cons c cs ih =>
    rw [collectSources_cons, ih]
    show _ = (c :: cs).flatMap _
    rw [List.flatMap_cons]
    rw [show chunkSources c = webSourceSpec c ++ mapsSourcesSpec c from by
      rw [chunkSources, webChunkSources_eq_spec, mapsChunkSources_eq_spec]]
    rfl

/-- C5 counterexample: a map-reference chunk whose place URI is absent but
whose nested review snippet carries a non-empty URI yields no Source at all,
whereas the claim as stated promises one Source for the place plus one for
the snippet. -/
theorem maps_chunk_without_uri_yields_nothing :
    collectSources [c5Chunk] = [] ∧
      ¬ ∃ s ∈ collectSources [c5Chunk], s.uri = "http://avis.example" := by
  refine ⟨rfl, ?_⟩
  rintro ⟨s, hs, -⟩
  rw [show collectSources [c5Chunk] = [] from rfl] at hs
  exact absurd hs (List.not_mem_nil s)

/-- C10: a map-reference chunk whose own place URI is absent or empty
contributes no Source entries at all - its nested review snippets are
skipped even when they carry non-empty URIs; removing such a chunk from the
chunk list leaves the collected sources unchanged. -/
theorem maps_uri_gate_skips_snippets :
    ∀ (w : Option WebRef) (m : MapsRef) (pre post : List GroundingChunk),
      optTruthy m.uri = false →
      chunkSources ⟨w, some m⟩ = chunkSources ⟨w, none⟩ ∧
      collectSources (pre ++ (⟨none, some m⟩ : GroundingChunk) :: post) =
        collectSources (pre ++ post) := by
  intro w m pre post hm
  have hmapsAny : ∀ w2 : Option WebRef, mapsChunkSources ⟨w2, some m⟩ = [] := by
    intro w2
    obtain ⟨mu, mt, mpas⟩ := m
    cases mu with
    | none => rfl
    | some u =>
      have hu : u.isEmpty = true := by simpa [optTruthy] using hm
      simp [mapsChunkSources, hu]
  constructor
  · show webChunkSources _ ++ _ = webChunkSources _ ++ _
    rw [hmapsAny w]
    rfl
  · rw [collectSources_append, collectSources_cons, collectSources_append]
    rw [show chunkSources ⟨none, some m⟩ = [] from by
      show webChunkSources _ ++ _ = []
      rw [hmapsAny none]
      rfl]
    simp

/-- C10 witness: the gate at a concrete map reference whose place URI is the
empty string and whose snippet URI is non-empty. -/
theorem maps_uri_gate_skips_snippets_witness :
    chunkSources ⟨none, some c10Maps⟩ = chunkSources ⟨none, none⟩ ∧
    collectSources ([] ++ (⟨none, some c10Maps⟩ : GroundingChunk) :: []) =
      collectSources ([] ++ []) :=
  maps_uri_gate_skips_snippets none c10Maps [] [] (by decide)

/-- C1 counterexample: in a concrete two-article batch the article at index
0 does not have a createdAt greater than or equal to that of the article at
index 1 - the code offsets the batch timestamp backward by (length - 1 -
index) hours, so index 0 carries the oldest synthetic timestamp. -/
theorem createdAt_index_zero_not_newest :
    ¬ (((mkNewsArticles c1Raws [] 1700000000000).getD 0 emptyArticle).createdAt.getD 0 ≥
        ((mkNewsArticles c1Raws [] 1700000000000).getD 1 emptyArticle).createdAt.getD 0) := by
  decide

/-- C1 (amended): for every batch of N parsed articles the synthetic
createdAt is nondecreasing in list position, so the article at the last
index (not index 0) carries the maximal value and index 0 carries the
minimum - later list positions appear newer. -/
theorem mkNewsArticles_createdAt_monotone :
    ∀ (raws : List RawArticle) (sources : List Source) (now : Int) (i j : Nat)
      (hij : i ≤ j) (hi : i < (mkNewsArticles raws sources now).length)
      (hj : j < (mkNewsArticles raws sources now).length),
      ((mkNewsArticles raws sources now).get ⟨i, hi⟩).createdAt.getD 0 ≤
        ((mkNewsArticles raws sources now).get ⟨j, hj⟩).createdAt.getD 0 := by
  intro raws sources now i j hij hi hj
  have hi2 : i < raws.length := by rw [mkNewsArticles_length] at hi; exact hi
  have hj2 : j < raws.length := by rw [mkNewsArticles_length] at hj; exact hj
  rw [mkNewsArticles_get raws sources now i hi2 hi,
    mkNewsArticles_get raws sources now j hj2 hj]
  simp only [mkOneArticle, Option.getD_some]
  omega

/-- C1 witness: the monotonicity at the concrete two-article batch. -/
theorem mkNewsArticles_createdAt_monotone_witness :
    ((mkNewsArticles c1Raws [] 1700000000000).get ⟨0, by decide⟩).createdAt.getD 0 ≤
      ((mkNewsArticles c1Raws [] 1700000000000).get ⟨1, by decide⟩).createdAt.getD 0 :=
  mkNewsArticles_createdAt_monotone c1Raws [] 1700000000000 0 1 (by decide) (by decide)
    (by decide)

/-- C6: every article of a successful fetch batch carries the same shared
source list, namely the full list collected from the grounding chunks of
that fetch. -/
theorem fetch_articles_share_all_sources :
    ∀ (text : String) (chunks : List GroundingChunk) (now : Int)
      (imgs : Nat → Option String) (arts : List NewsArticle),
      fetchEnvironmentalNews text chunks now imgs = Except.ok arts →
      ∀ (i : Nat) (hi : i < arts.length),
        (arts.get ⟨i, hi⟩).sources = collectSources chunks := by
  intro text chunks now imgs arts hfetch i hi
  unfold fetchEnvironmentalNews at hfetch
  cases hp : parseStage text with
  | error e => rw [hp] at hfetch; exact absurd hfetch (by simp)
  | ok raws =>
    rw [hp] at hfetch
    simp only [Except.ok.injEq] at hfetch
    subst hfetch
    have hi1 : i < (mkNewsArticles raws (collectSources chunks) now).length := by
      have := enrichWithImages_length imgs (mkNewsArticles raws (collectSources chunks) now)
      omega
    rw [enrichWithImages_get imgs _ i hi1 hi]
    have hi2 : i < raws.length := by rw [mkNewsArticles_length] at hi1; exact hi1
    rw [mkNewsArticles_get raws _ now i hi2 hi1]
    cases imgs i <;> rfl

/-- C6 witness: the shared source list at a concrete fetch with one web
chunk. -/
theorem fetch_articles_share_all_sources_witness :
    (c6Arts.get ⟨0, by decide⟩).sources = collectSources [c6Chunk] :=
  fetch_articles_share_all_sources c6Text [c6Chunk] 0 c6Imgs c6Arts rfl 0 (by decide)

/-- C7: if image generation fails for article i of an aggregated batch and
succeeds for every other article, the enriched batch keeps all articles with
id, title, summary, category, sources and createdAt unchanged; only article
i lacks an imageUrl and every other article carries one. -/
theorem enrich_partial_image_failure :
    ∀ (raws : List RawArticle) (sources : List Source) (now : Int)
      (imgs : Nat → Option String) (i : Nat),
      imgs i = none →
      (∀ j, j < raws.length → j ≠ i → (imgs j).isSome = true) →
      (enrichWithImages imgs (mkNewsArticles raws sources now)).length = raws.length ∧
      (∀ (j : Nat) (hj : j < (enrichWithImages imgs (mkNewsArticles raws sources now)).length)
          (hj2 : j < (mkNewsArticles raws sources now).length),
        ((enrichWithImages imgs (mkNewsArticles raws sources now)).get ⟨j, hj⟩).id =
            ((mkNewsArticles raws sources now).get ⟨j, hj2⟩).id ∧
          ((enrichWithImages imgs (mkNewsArticles raws sources now)).get ⟨j, hj⟩).title =
            ((mkNewsArticles raws sources now).get ⟨j, hj2⟩).title ∧
          ((enrichWithImages imgs (mkNewsArticles raws sources now)).get ⟨j, hj⟩).summary =
            ((mkNewsArticles raws sources now).get ⟨j, hj2⟩).summary ∧
          ((enrichWithImages imgs (mkNewsArticles raws sources now)).get ⟨j, hj⟩).category =
            ((mkNewsArticles raws sources now).get ⟨j, hj2⟩).category ∧
          ((enrichWithImages imgs (mkNewsArticles raws sources now)).get ⟨j, hj⟩).sources =
            ((mkNewsArticles raws sources now).get ⟨j, hj2⟩).sources ∧
          ((enrichWithImages imgs (mkNewsArticles raws sources now)).get ⟨j, hj⟩).createdAt =
            ((mkNewsArticles raws sources now).get ⟨j, hj2⟩).createdAt) ∧
      (∀ (hi : i < (enrichWithImages imgs (mkNewsArticles raws sources now)).length),
        ((enrichWithImages imgs (mkNewsArticles raws sources now)).get ⟨i, hi⟩).imageUrl =
          none) ∧
      (∀ (j : Nat) (hj : j < (enrichWithImages imgs (mkNewsArticles raws sources now)).length),
        j ≠ i →
        (((enrichWithImages imgs (mkNewsArticles raws sources now)).get
            ⟨j, hj⟩).imageUrl).isSome = true) := by
  intro raws sources now imgs i hImgI hOthers
  refine ⟨?_, ?_, ?_, ?_⟩
  · rw [enrichWithImages_length, mkNewsArticles_length]
  · intro j hj hj2
    rw [enrichWithImages_get imgs _ j hj2 hj]
    cases imgs j <;> simp
  · intro hi
    have hi2 : i < (mkNewsArticles raws sources now).length := by
      rw [enrichWithImages_length] at hi; exact hi
    rw [enrichWithImages_get imgs _ i hi2 hi, hImgI]
    have hi3 : i < raws.length := by rw [mkNewsArticles_length] at hi2; exact hi2
    rw [mkNewsArticles_get raws sources now i hi3 hi2]
    rfl
  · intro j hj hne
    have hj2 : j < (mkNewsArticles raws sources now).length := by
      rw [enrichWithImages_length] at hj; exact hj
    have hjr : j < raws.length := by rw [mkNewsArticles_length] at hj2; exact hj2
    have hs := hOthers j hjr hne
    rw [enrichWithImages_get imgs _ j hj2 hj]
    cases himg : imgs j with
    | none => rw [himg] at hs; exact absurd hs (by simp)
    | some u => simp

/-- C7 witness: enrichment of a concrete two-article batch whose image
generation fails only at index 0. -/
theorem enrich_partial_image_failure_witness :
    (enrichWithImages c7Imgs (mkNewsArticles c7Raws [] 5)).length = c7Raws.length ∧
    ((enrichWithImages c7Imgs (mkNewsArticles c7Raws [] 5)).get ⟨0, by decide⟩).imageUrl =
      none ∧
    (((enrichWithImages c7Imgs (mkNewsArticles c7Raws [] 5)).get
        ⟨1, by decide⟩).imageUrl).isSome = true := by
  have h := enrich_partial_image_failure c7Raws [] 5 c7Imgs 0 rfl (by decide)
  exact ⟨h.1, h.2.2.1 (by decide), h.2.2.2 1 (by decide) (by decide)⟩

/-- C2: for every model output text whose bracket span parses as a JSON
array of N objects, the parser succeeds with exactly N records, and wherever
an object carries string title, summary and category fields the
corresponding record fields are those strings, copied verbatim. -/
theorem parseStage_json_array_verbatim :
    ∀ (text : String) (span : List Char) (objs : List Json),
      extractSpan (jsTrimChars text.data) = some span →
      jsonParse span = some (Json.arr objs) →
      ∃ raws, parseStage text = Except.ok raws ∧ raws.length = objs.length ∧
        ∀ (k : Nat) (hk : k < objs.length) (hk2 : k < raws.length) (t s c : String),
          jStrField (objs.get ⟨k, hk⟩) "title" = some t →
          jStrField (objs.get ⟨k, hk⟩) "summary" = some s →
          jStrField (objs.get ⟨k, hk⟩) "category" = some c →
          (raws.get ⟨k, hk2⟩).title = some t ∧ (raws.get ⟨k, hk2⟩).summary = some s ∧
            (raws.get ⟨k, hk2⟩).category = some c := by
  intro text span objs hspan hjson
  refine ⟨objs.map jsonToRaw, ?_, by simp, ?_⟩
  · unfold parseStage
    simp only [hspan, hjson, jsonToRaws]
  · intro k hk hk2 t s c ht hs hc
    rw [get_map_aux jsonToRaw objs k hk hk2]
    simp only [List.get_eq_getElem] at ht hs hc
    exact ⟨by simpa [jsonToRaw] using ht, by simpa [jsonToRaw] using hs,
      by simpa [jsonToRaw] using hc⟩

/-- C2 witness: the verbatim copy at a concrete one-object JSON output. -/
theorem parseStage_json_array_verbatim_witness :
    ∃ raws, parseStage c2Text = Except.ok raws ∧ raws.length = ([c2Obj] : List Json).length ∧
      ∀ (k : Nat) (hk : k < ([c2Obj] : List Json).length) (hk2 : k < raws.length)
        (t s c : String),
        jStrField (([c2Obj] : List Json).get ⟨k, hk⟩) "title" = some t →
        jStrField (([c2Obj] : List Json).get ⟨k, hk⟩) "summary" = some s →
        jStrField (([c2Obj] : List Json).get ⟨k, hk⟩) "category" = some c →
        (raws.get ⟨k, hk2⟩).title = some t ∧ (raws.get ⟨k, hk2⟩).summary = some s ∧
          (raws.get ⟨k, hk2⟩).category = some c :=
  parseStage_json_array_verbatim c2Text c2Text.data [c2Obj] rfl rfl

/-- C4 (amended): when the trimmed model output has no bracket span the
fetch recovers locally through the regex fallback and returns successfully;
when a bracket span is present but is not valid JSON, the parse failure
escapes to the catch block and is surfaced to the caller as a generic fetch
error. -/
theorem fetch_parse_recovery :
    ∀ (text : String) (chunks : List GroundingChunk) (now : Int)
      (imgs : Nat → Option String),
      (extractSpan (jsTrimChars text.data) = none →
        isOkE (fetchEnvironmentalNews text chunks now imgs) = true) ∧
      (∀ span, extractSpan (jsTrimChars text.data) = some span →
        jsonParse span = none →
        fetchEnvironmentalNews text chunks now imgs =
          Except.error (fetchCatchMessage jsonSyntaxErrorMessage)) := by
  intro text chunks now imgs
  constructor
  · intro hnone
    unfold fetchEnvironmentalNews parseStage
    rw [hnone]
    rfl
  · intro span hspan hjson
    unfold fetchEnvironmentalNews parseStage
    simp only [hspan, hjson]

/-- C4 counterexample: a model output containing a bracket span that is not
valid JSON is not recovered by the fallback - the fetch surfaces an error to
the caller. -/
theorem invalid_span_surfaces_error :
    (extractSpan (jsTrimChars "[oops]".data)).isSome = true ∧
    isOkE (fetchEnvironmentalNews "[oops]" [] 0 (fun _ => none)) = false :=
  ⟨rfl, rfl⟩

/-- C4 witness: recovery on concrete bracket-free text, and the surfaced
error on a concrete invalid bracket span. -/
theorem fetch_parse_recovery_witness :
    isOkE (fetchEnvironmentalNews "Titre introuvable" [] 0 (fun _ => none)) = true ∧
    fetchEnvironmentalNews "[pas du json]" [] 0 (fun _ => none) =
      Except.error (fetchCatchMessage jsonSyntaxErrorMessage) :=
  ⟨(fetch_parse_recovery "Titre introuvable" [] 0 (fun _ => none)).1 rfl,
    (fetch_parse_recovery "[pas du json]" [] 0 (fun _ => none)).2 "[pas du json]".data rfl rfl⟩

/-- C8: every error whose string form contains the API_KEY_INVALID
substring is classified as a credential error by the shared catch block of
the fetch operations (the distinct select-a-valid-API-key message, not the
generic wrapped failure) and by the chat send path, which also triggers the
key re-selection flow. -/
theorem credential_error_classification :
    ∀ (e : String), containsSub e "API_KEY_INVALID" = true →
      fetchCatchMessage e =
          "Clé API invalide ou non sélectionnée. Veuillez sélectionner votre clé API." ∧
      (chatHandleSendError e).message =
          "Votre clé API est invalide ou a expiré. Veuillez en sélectionner une nouvelle." ∧
      (chatHandleSendError e).reselect = true := by
  intro e h
  unfold fetchCatchMessage chatHandleSendError
  rw [h]
  simp

/-- C8 witness: classification of a concrete provider error text. -/
theorem credential_error_classification_witness :
    fetchCatchMessage "ApiError: 400 API_KEY_INVALID. Please provide a valid key." =
        "Clé API invalide ou non sélectionnée. Veuillez sélectionner votre clé API." ∧
    (chatHandleSendError "ApiError: 400 API_KEY_INVALID. Please provide a valid key.").message =
        "Votre clé API est invalide ou a expiré. Veuillez en sélectionner une nouvelle." ∧
    (chatHandleSendError "ApiError: 400 API_KEY_INVALID. Please provide a valid key.").reselect =
      true :=
  credential_error_classification "ApiError: 400 API_KEY_INVALID. Please provide a valid key."
    (by decide)

/-- C9: for every finite fragment stream of a chat send, the sink is invoked
once per fragment in generation order before the send resolves, and a caller
accumulating the fragments ends with their concatenation; in particular the
stream Bonjour, space-le-monde accumulates to Bonjour le monde. -/
theorem sendMessageToChat_stream_order_and_concat :
    (∀ (frags : List String),
      sendMessageToChat frags (fun p c => (p.1 ++ [c], p.2 ++ c)) (([] : List String), "") =
        (frags, concatFragments frags)) ∧
    sendMessageToChat ["Bonjour", " le monde"] (fun p c => (p.1 ++ [c], p.2 ++ c))
        (([] : List String), "") = (["Bonjour", " le monde"], "Bonjour le monde") := by
  have key : ∀ (frags l : List String) (s : String),
      frags.foldl (fun p c => (p.1 ++ [c], p.2 ++ c)) (l, s) =
        (l ++ frags, frags.foldl (fun a b => a ++ b) s) := by
    intro frags
    induction frags with
    | nil => intro l s; simp
    | cons c cs ih =>
      intro l s
      show List.foldl _ (l ++ [c], s ++ c) cs = _
      rw [ih]
      simp
  constructor
  · intro frags
    show List.foldl _ ([], "") frags = _
    rw [key]
    simp [concatFragments]
  · decide

theorem findFrom_some (cs pat : List Char) (s i : Nat)
    (h : findFrom cs pat s = some i) :
    s ≤ i ∧ matchesAt cs pat i = true ∧ i ≤ cs.length := by
  have hp := List.find?_some h
  have hm := List.mem_of_find?_eq_some h
  rw [List.mem_range] at hm
  rw [Bool.and_eq_true, decide_eq_true_eq] at hp
  exact ⟨hp.1, hp.2, by omega⟩

theorem findLookahead_ge (cs : List Char) (s : Nat) : s ≤ findLookahead cs s := by
  unfold findLookahead
  cases h : (List.range (cs.length + 1)).find? (fun p => decide (s ≤ p) && lookaheadOk cs p) with
  | none => exact Nat.le_refl s
  | some r =>
    have hp := List.find?_some h
    rw [Bool.and_eq_true, decide_eq_true_eq] at hp
    exact hp.1

theorem skipCands_mem_lt (cs : List Char) (a : Nat) (lab : List Char)
    (gp : List Char × Nat) (hmem : gp ∈ skipCands cs a lab) : a < gp.2 := by
  unfold skipCands at hmem
  rw [List.mem_append] at hmem
  cases hmem with
  | inl h =>
    rw [List.mem_map] at h
    obtain ⟨r, hr, heq⟩ := h
    unfold occListFrom at hr
    rw [List.mem_filter] at hr
    have h2 := hr.2
    rw [Bool.and_eq_true, decide_eq_true_eq] at h2
    subst heq
    have := h2.1
    simp only []
    omega
  | inr h =>
    by_cases hc : 0 < wsRun cs a ∧ matchesAt cs ('\n' :: lab) (a + wsRun cs a - 1) = true
    · rw [if_pos hc] at h
      rw [List.mem_singleton] at h
      subst h
      have := hc.1
      simp only []
      omega
    · rw [if_neg hc] at h
      exact absurd h (List.not_mem_nil gp)

theorem firstStage2_some (cs : List Char) :
    ∀ (cands : List (List Char × Nat)) (caps : List Char × List Char × List Char) (nxt : Nat),
      firstStage2 cs cands = some (caps, nxt) → ∃ gp ∈ cands, gp.2 < nxt := by
  intro cands
  induction cands with
  | nil => intro caps nxt h; exact absurd h (by simp [firstStage2])
  | cons gp rest ih =>
    intro caps nxt h
    obtain ⟨g1, p2⟩ := gp
    unfold firstStage2 at h
    cases hc : skipCands cs p2 categLab with
    | nil =>
      rw [hc] at h
      obtain ⟨gp2, hgp2, hlt⟩ := ih caps nxt h
      exact ⟨gp2, List.mem_cons_of_mem _ hgp2, hlt⟩
    | cons c2 tail =>
      obtain ⟨g2, p3⟩ := c2
      rw [hc] at h
      simp only [Option.some.injEq] at h
      have hp3 : p2 < p3 := by
        have := skipCands_mem_lt cs p2 categLab (g2, p3) (by rw [hc]; exact List.mem_cons_self _ _)
        simpa using this
      have hsnd := congrArg Prod.snd h
      simp only [stage3Finish] at hsnd
      have hge := findLookahead_ge cs (p3 + wsRun cs p3)
      refine ⟨(g1, p2), List.mem_cons_self _ _, ?_⟩
      simp only []
      omega

theorem matchAtTitre_lt (cs : List Char) (i : Nat)
    (caps : List Char × List Char × List Char) (nxt : Nat)
    (h : matchAtTitre cs i = some (caps, nxt)) : i < nxt := by
  obtain ⟨gp, hgp, hlt⟩ := firstStage2_some cs _ caps nxt h
  have := skipCands_mem_lt cs (i + titreMark.length) resumeLab gp hgp
  omega

theorem findMatchFrom_occ (cs : List Char) :
    ∀ (fuel s : Nat) (caps : List Char × List Char × List Char) (nxt : Nat),
      findMatchFrom cs fuel s = some (caps, nxt) →
      ∃ i, s ≤ i ∧ matchesAt cs titreMark i = true ∧ i ≤ cs.length ∧ i < nxt := by
  intro fuel
  induction fuel with
  | zero => intro s caps nxt h; exact absurd h (by simp [findMatchFrom])
  | succ fuel ih =>
    intro s caps nxt h
    unfold findMatchFrom at h
    cases hf : findFrom cs titreMark s with
    | none => rw [hf] at h; exact absurd h (by simp)
    | some i =>
      simp only [hf] at h
      obtain ⟨h1, h2, h3⟩ := findFrom_some cs titreMark s i hf
      cases hm : matchAtTitre cs i with
      | some res =>
        obtain ⟨g, n⟩ := res
        simp only [hm, Option.some.injEq, Prod.mk.injEq] at h
        have hlt := matchAtTitre_lt cs i g n hm
        exact ⟨i, h1, h2, h3, by omega⟩
      | none =>
        simp only [hm] at h
        obtain ⟨i2, hi2a, hi2b, hi2c, hi2d⟩ := ih (i + 1) caps nxt h
        exact ⟨i2, by omega, hi2b, hi2c, hi2d⟩

theorem occCnt_decrease (cs pat : List Char) (s i nxt : Nat) (hsi : s ≤ i)
    (hm : matchesAt cs pat i = true) (hil : i ≤ cs.length) (hin : i < nxt) :
    occCntFrom cs pat nxt < occCntFrom cs pat s := by
  apply Finset.card_lt_card
  rw [Finset.ssubset_def]
  constructor
  · intro p hp
    rw [Finset.mem_filter] at hp ⊢
    exact ⟨hp.1, by omega, hp.2.2⟩
  · intro hsub
    have hi : i ∈ (Finset.range (cs.length + 1)).filter
        (fun p => s ≤ p ∧ matchesAt cs pat p = true) := by
      rw [Finset.mem_filter, Finset.mem_range]
      exact ⟨by omega, hsi, hm⟩
    have := hsub hi
    rw [Finset.mem_filter] at this
    omega

theorem matchAllGo_le (cs : List Char) :
    ∀ (fuel pos : Nat), (matchAllGo cs fuel pos).length ≤ occCntFrom cs titreMark pos := by
  intro fuel
  induction fuel with
  | zero => intro pos; simp [matchAllGo]
  | succ fuel ih =>
    intro pos
    unfold matchAllGo
    cases h : findMatchFrom cs (cs.length + 1) pos with
    | none => simp
    | some res =>
      obtain ⟨caps, nxt⟩ := res
      simp only [List.length_cons]
      obtain ⟨i, h1, h2, h3, h4⟩ := findMatchFrom_occ cs (cs.length + 1) pos caps nxt h
      have hdec := occCnt_decrease cs titreMark pos i nxt h1 h2 h3 h4
      have hih := ih nxt
      omega

/-- C3 (amended): for malformed or unstructured output containing K
occurrences of the title marker, the fallback parser yields at most K
records - one per complete Titre, Résumé, Catégorie pattern match with the
trimmed captures as fields; a marker whose segment lacks the labelled
summary or category lines yields no record (segments are dropped, not
filled with placeholders); K = 0 yields the empty sequence, not an error. -/
theorem fallback_at_most_marker_count :
    ∀ (cs : List Char),
      (fallbackRegexParse cs).length ≤ occCntFrom cs titreMark 0 ∧
      (occCntFrom cs titreMark 0 = 0 → fallbackRegexParse cs = []) := by
  intro cs
  have h1 : (fallbackRegexParse cs).length ≤ occCntFrom cs titreMark 0 := by
    unfold fallbackRegexParse fallbackMatches
    rw [List.length_map]
    exact matchAllGo_le cs (cs.length + 2) 0
  exact ⟨h1, fun h0 => List.length_eq_zero.mp (by omega)⟩

/-- C3 counterexample: a text containing one title marker but no labelled
Résumé and Catégorie lines yields zero records from the fallback, not one
record with placeholder fields. -/
theorem fallback_drops_unlabeled_segment :
    occCntFrom "Titre: A".data titreMark 0 = 1 ∧ fallbackRegexParse "Titre: A".data = [] := by
  exact ⟨by decide, rfl⟩

/-- C3 witness: the bound and the marker-free case at concrete text. -/
theorem fallback_at_most_marker_count_witness :
    (fallbackRegexParse "aucun marqueur present".data).length ≤
      occCntFrom "aucun marqueur present".data titreMark 0 ∧
    fallbackRegexParse "aucun marqueur present".data = [] :=
  ⟨(fallback_at_most_marker_count "aucun marqueur present".data).1,
    (fallback_at_most_marker_count "aucun marqueur present".data).2 (by decide)⟩
